import Mathlib

/-!
Verification of the ResonanceDB native similarity kernel
(`src/resonance-native/src/main/c/compare.c`).

The C file computes an interference-based similarity score between "wave
patterns" (parallel amplitude/phase arrays).  We embed the kernel shallowly:
single-precision floats become real numbers (arithmetic is modelled exactly),
`float *` buffers become `Option (List ℝ)` (`none` models a null pointer,
out-of-range reads never occur on the paths modelled), the C `int` arguments
become `ℤ`, and the caller-owned output buffer of the batch entry points is
threaded explicitly.  Loop accumulations of `+` over `float` become finite
sums over `ℝ`; the AVX2 lane-parallel paths are modelled lane-exactly with
8-lane vectors (`Fin 8 → ℝ`), including their remainder handling, so that the
vectorized and scalar paths can be compared inside the model.
-/

/-- Energy floor, `#define MIN_ENERGY 1e-20f` (compare.c line 28). -/
noncomputable def MIN_ENERGY : ℝ := 1e-20

/-- Maximum pattern length, `#define MAX_LEN (1u << 24)` (compare.c line 29). -/
def MAX_LEN : ℤ := 2 ^ 24

/-- Maximum batch count, `#define MAX_COUNT (1u << 24)` (compare.c line 30). -/
def MAX_COUNT : ℤ := 2 ^ 24

/-- First loop of `wrap_pi` (compare.c line 67): `while (x <= -pi) x += twoPi;`,
with exact real addition.  This idealization is value-faithful wherever the
float sum is exact or rounds without absorbing the increment; for magnitudes
at and above `2^27` the single-precision loop body absorbs `twoPi` entirely
and makes no progress — see `wrapUpStepFloat` for the rounding-faithful
model of that regime. -/
noncomputable def wrapUp (x : ℝ) : ℝ :=
  if x ≤ -Real.pi then wrapUp (x + 2 * Real.pi) else x
termination_by Nat.ceil ((Real.pi - x) / (2 * Real.pi))
decreasing_by
  have hpi := Real.pi_pos
  have h1 : (1 : ℝ) ≤ (Real.pi - x) / (2 * Real.pi) := by
    rw [le_div_iff₀ (by linarith)]
    linarith
  have h2 : (Real.pi - (x + 2 * Real.pi)) / (2 * Real.pi)
      = (Real.pi - x) / (2 * Real.pi) - 1 := by
    field_simp
    ring
  rw [h2]
  have h3 : (Nat.ceil ((Real.pi - x) / (2 * Real.pi) - 1) : ℝ)
      < (Real.pi - x) / (2 * Real.pi) := by
    calc (Nat.ceil ((Real.pi - x) / (2 * Real.pi) - 1) : ℝ)
        < ((Real.pi - x) / (2 * Real.pi) - 1) + 1 := Nat.ceil_lt_add_one (by linarith)
      _ = (Real.pi - x) / (2 * Real.pi) := by ring
  have h4 : ((Real.pi - x) / (2 * Real.pi)) ≤ (Nat.ceil ((Real.pi - x) / (2 * Real.pi)) : ℝ) :=
    Nat.le_ceil _
  exact_mod_cast lt_of_lt_of_le h3 h4

/-- Second loop of `wrap_pi` (compare.c line 68): `while (x >  pi)  x -= twoPi;`,
with exact real subtraction; the same absorption caveat as `wrapUp` applies
for magnitudes at and above `2^27`. -/
noncomputable def wrapDown (x : ℝ) : ℝ :=
  if Real.pi < x then wrapDown (x - 2 * Real.pi) else x
termination_by Nat.ceil ((x + Real.pi) / (2 * Real.pi))
decreasing_by
  have hpi := Real.pi_pos
  have h1 : (1 : ℝ) ≤ (x + Real.pi) / (2 * Real.pi) := by
    rw [le_div_iff₀ (by linarith)]
    linarith
  have h2 : ((x - 2 * Real.pi) + Real.pi) / (2 * Real.pi)
      = (x + Real.pi) / (2 * Real.pi) - 1 := by
    field_simp
    ring
  rw [h2]
  have h3 : (Nat.ceil ((x + Real.pi) / (2 * Real.pi) - 1) : ℝ)
      < (x + Real.pi) / (2 * Real.pi) := by
    calc (Nat.ceil ((x + Real.pi) / (2 * Real.pi) - 1) : ℝ)
        < ((x + Real.pi) / (2 * Real.pi) - 1) + 1 := Nat.ceil_lt_add_one (by linarith)
      _ = (x + Real.pi) / (2 * Real.pi) := by ring
  have h4 : ((x + Real.pi) / (2 * Real.pi)) ≤ (Nat.ceil ((x + Real.pi) / (2 * Real.pi)) : ℝ) :=
    Nat.le_ceil _
  exact_mod_cast lt_of_lt_of_le h3 h4

/-- The scalar phase-wrapping helper `wrap_pi` (compare.c lines 64-70): first
add `2π` while `x ≤ -π`, then subtract `2π` while `x > π`. -/
noncomputable def wrap_pi (x : ℝ) : ℝ := wrapDown (wrapUp x)

/-- Exact real value of the single-precision constant
`twoPi = 2.0f * (float)M_PI` (compare.c line 66): the binary32 neighbour of
`π` is `13176795 * 2^-22`, and doubling it is exact. -/
noncomputable def twoPiF : ℝ := 6.2831854820251464843750

/-- Round-to-nearest onto the grid of spacing `u`: the IEEE-754 rounding of a
real result whose magnitude lies in a binade where representable
single-precision floats are `u` apart (for binade `[2^27, 2^28)`, `u = 16`).
`round` breaks ties upward while IEEE breaks them to even, but the inputs this
model is evaluated at are not ties. -/
noncomputable def roundToSpacing (u y : ℝ) : ℝ := u * ((round (y / u) : ℤ) : ℝ)

/-- One single-precision iteration of the first `wrap_pi` loop body
`x += twoPi` (compare.c line 67) for `x` whose magnitude lies in the binade
`[2^27, 2^28)`, where float spacing is `16`: the float sum `x + twoPiF` is
rounded back onto the 16-spaced grid. -/
noncomputable def wrapUpStepFloat (x : ℝ) : ℝ := roundToSpacing 16 (x + twoPiF)

/-- Accumulated energy `Σ a[i]*a[i]` of the first `len` samples, the `EA`/`EB`
accumulators of the scalar loops (compare.c lines 74-78). Out-of-range reads do
not occur in the C code; `getD` with default `0` keeps the model total. -/
noncomputable def energySum (a : List ℝ) (len : ℕ) : ℝ :=
  ∑ i in Finset.range len, a.getD i 0 * a.getD i 0

/-- Accumulated cross term `Σ a1[i]*a2[i]*cosf(p2[i]-p1[i])` (compare.c line 79). -/
noncomputable def crossSum (a1 p1 a2 p2 : List ℝ) (len : ℕ) : ℝ :=
  ∑ i in Finset.range len, a1.getD i 0 * a2.getD i 0 * Real.cos (p2.getD i 0 - p1.getD i 0)

/-- Accumulated wrapped phase delta `Σ wrap_pi(P2[i]-P1[i])`, the `dsum`
accumulator (compare.c line 100). -/
noncomputable def deltaSum (p1 p2 : List ℝ) (len : ℕ) : ℝ :=
  ∑ i in Finset.range len, wrap_pi (p2.getD i 0 - p1.getD i 0)

/-- Post-accumulation score arithmetic shared verbatim by every call site
(compare.c lines 81-87, 102-109, 163-174, 262-270, 289-297, 385-393, 415-423,
519-529): `0` when `denom = EA+EB` is at or below the energy floor, otherwise
`0.5*(IF/denom)` times the amplitude-balance factor. -/
noncomputable def scoreFromSums (EA EB cross : ℝ) : ℝ :=
  let denom := EA + EB
  if MIN_ENERGY < denom then
    0.5 * ((EA + EB + 2 * cross) / denom) *
      (if MIN_ENERGY < EA ∧ MIN_ENERGY < EB then 2 * Real.sqrt (EA * EB) / denom else 0)
  else 0

/-- The scalar reference kernel `compare_scalar_cosdelta` (compare.c lines 72-88). -/
noncomputable def compare_scalar_cosdelta (a1 p1 a2 p2 : List ℝ) (len : ℕ) : ℝ :=
  scoreFromSums (energySum a1 len) (energySum a2 len) (crossSum a1 p1 a2 p2 len)

/-- The scalar phase-delta kernel `compare_with_delta_scalar`
(compare.c lines 90-111): the `(out[0], out[1])` pair it stores. -/
noncomputable def compare_with_delta_scalar (A1 P1 A2 P2 : List ℝ) (len : ℕ) : ℝ × ℝ :=
  let EA := energySum A1 len
  let EB := energySum A2 len
  let cross := crossSum A1 P1 A2 P2 len
  let dsum := deltaSum P1 P2 len
  let denom := EA + EB
  if denom ≤ MIN_ENERGY then (0, 0)
  else (0.5 * ((EA + EB + 2 * cross) / denom) *
          (if MIN_ENERGY < EA ∧ MIN_ENERGY < EB then 2 * Real.sqrt (EA * EB) / denom else 0),
        dsum / (len : ℝ))

/-- Entry point `compare_wave_patterns` (compare.c lines 113-178): argument
validation (lines 117-123) followed by the scalar kernel.  In exact arithmetic
the AVX2 branch (lines 125-174) computes the same sums — its remainder loop
folds leftover samples into the already-reduced scalar accumulators — so the
portable branch (line 176) serves as the model of the returned value.  A `none`
buffer models a null pointer. -/
noncomputable def compare_wave_patterns (a1 p1 a2 p2 : Option (List ℝ)) (len : ℤ) : ℝ :=
  match a1, p1, a2, p2 with
  | some a1, some p1, some a2, some p2 =>
    if len ≤ 0 ∨ MAX_LEN < len then 0
    else compare_scalar_cosdelta a1 p1 a2 p2 len.toNat
  | _, _, _, _ => 0

/-- Entry point `compare_with_phase_delta` (compare.c lines 429-535), scalar
(`#else`, line 533) semantics: validation (lines 433-446, `out` pre-zeroed at
line 439) followed by `compare_with_delta_scalar`.  The AVX2 branch is modelled
separately as `compare_with_phase_delta_avx2`. -/
noncomputable def compare_with_phase_delta (A1 P1 A2 P2 : Option (List ℝ)) (len : ℤ) : ℝ × ℝ :=
  match A1, P1, A2, P2 with
  | some A1, some P1, some A2, some P2 =>
    if len ≤ 0 ∨ MAX_LEN < len then (0, 0)
    else compare_with_delta_scalar A1 P1 A2 P2 len.toNat
  | _, _, _, _ => (0, 0)

/-- Batch entry point `compare_many_flat` (compare.c lines 180-301), portable
(`#else`, lines 276-299) semantics: validation (lines 185-188) returns with the
output untouched; otherwise candidate `k` occupies `len` consecutive samples at
offset `k*len` of the two flat blocks, and `out[k]` receives the §4.1 score of
the query against candidate `k`.  The AVX2 branch is modelled separately as
`compare_many_flat_avx2`. -/
noncomputable def compare_many_flat (ampQ phaseQ ampAll phaseAll : Option (List ℝ))
    (len count : ℤ) (out : Option (List ℝ)) : Option (List ℝ) :=
  match ampQ, phaseQ, ampAll, phaseAll, out with
  | some ampQ, some phaseQ, some ampAll, some phaseAll, some out =>
    if len ≤ 0 ∨ count ≤ 0 ∨ MAX_LEN < len ∨ MAX_COUNT < count then some out
    else
      some ((List.range count.toNat).foldl (fun o k =>
        o.set k (scoreFromSums (energySum ampQ len.toNat)
          (energySum (ampAll.drop (k * len.toNat)) len.toNat)
          (crossSum ampQ phaseQ (ampAll.drop (k * len.toNat))
            (phaseAll.drop (k * len.toNat)) len.toNat))) out)
  | _, _, _, _, o => o

/-- Batch entry point `compare_many` (compare.c lines 303-427), portable
(`#else`, lines 399-425) semantics: each candidate is an independent pair of
references (lines 404-406: a candidate with a null amplitude or phase reference
gets `out[k] = 0.0` and the loop continues).  The query energy `EA` is computed
once before the loop (lines 399-400). -/
noncomputable def compare_many (ampQ phaseQ : Option (List ℝ))
    (ampList phaseList : Option (List (Option (List ℝ))))
    (len count : ℤ) (out : Option (List ℝ)) : Option (List ℝ) :=
  match ampQ, phaseQ, ampList, phaseList, out with
  | some ampQ, some phaseQ, some ampList, some phaseList, some out =>
    if len ≤ 0 ∨ count ≤ 0 ∨ MAX_LEN < len ∨ MAX_COUNT < count then some out
    else
      some ((List.range count.toNat).foldl (fun o k =>
        o.set k (match ampList.getD k none, phaseList.getD k none with
          | some a2, some p2 =>
            scoreFromSums (energySum ampQ len.toNat) (energySum a2 len.toNat)
              (crossSum ampQ phaseQ a2 p2 len.toNat)
          | _, _ => 0)) out)
  | _, _, _, _, o => o

/-- An 8-lane single-precision SIMD register `__m256`, lane-exact over `ℝ`. -/
def Vec8 : Type := Fin 8 → ℝ

/-- `_mm256_setzero_ps()`. -/
def vzero : Vec8 := fun _ => 0

/-- `_mm256_set1_ps x`: broadcast one scalar into all 8 lanes. -/
def vset1 (x : ℝ) : Vec8 := fun _ => x

/-- `_mm256_loadu_ps (base + off)`: lanes `off..off+7` of a buffer. -/
def vload (a : List ℝ) (off : ℕ) : Vec8 := fun l => a.getD (off + l.val) 0

/-- `_mm256_add_ps`. -/
def vadd (u v : Vec8) : Vec8 := fun l => u l + v l

/-- `_mm256_mul_ps`. -/
def vmul (u v : Vec8) : Vec8 := fun l => u l * v l

/-- `_mm256_sub_ps`. -/
def vsub (u v : Vec8) : Vec8 := fun l => u l - v l

/-- `_mm256_fmadd_ps a b c = a*b + c`, lane-wise (exact in the real model). -/
def vfmadd (a b c : Vec8) : Vec8 := fun l => a l * b l + c l

/-- Horizontal sum `hsum256_ps` (compare.c lines 47-62), written as the
explicit 8-term sum of lanes (the portable branch, lines 58-60; exact
arithmetic makes the AVX shuffle tree equal to it). -/
noncomputable def hsum256_ps (v : Vec8) : ℝ :=
  v 0 + v 1 + v 2 + v 3 + v 4 + v 5 + v 6 + v 7

/-- Lane-wise sine of `Sleef_sincosf8_u35avx2`, modelled exactly. -/
noncomputable def vsin (p : Vec8) : Vec8 := fun l => Real.sin (p l)

/-- Lane-wise cosine of `Sleef_sincosf8_u35avx2` / `Sleef_cosf8_u10avx2`,
modelled exactly. -/
noncomputable def vcos (p : Vec8) : Vec8 := fun l => Real.cos (p l)

/-- One lane of the vectorized phase wrap of `compare_with_phase_delta`
(compare.c lines 476-479 and 495-498): both compare masks are computed from the
raw delta and a single conditional `±2π` correction is applied — unlike the
looping scalar `wrap_pi`. -/
noncomputable def wrap_pi_avx2 (d : ℝ) : ℝ :=
  (d - (if Real.pi < d then 2 * Real.pi else 0)) + (if d < -Real.pi then 2 * Real.pi else 0)

/-- The vectorized wrap applied lane-wise. -/
noncomputable def vwrapAvx (d : Vec8) : Vec8 := fun l => wrap_pi_avx2 (d l)

/-- Query-energy main loop of the AVX2 batch kernels (compare.c lines 194-200
and 317-323): two fused-multiply-add accumulators, 16 samples per iteration. -/
noncomputable def queryEnergyMain (ampQ : List ℝ) (len i : ℕ) (EA0 EA1 : Vec8) :
    ℕ × Vec8 × Vec8 :=
  if i + 16 ≤ len then
    queryEnergyMain ampQ len (i + 16)
      (vfmadd (vload ampQ i) (vload ampQ i) EA0)
      (vfmadd (vload ampQ (i + 8)) (vload ampQ (i + 8)) EA1)
  else (i, EA0, EA1)
termination_by len - i
decreasing_by omega

/-- Query-energy remainder loop of the AVX2 batch kernels (compare.c lines
202-205 and 325-328): each leftover sample is broadcast (`_mm256_set1_ps`) and
fused-multiply-added into the whole 8-lane accumulator. -/
noncomputable def queryEnergyRem (ampQ : List ℝ) (len i : ℕ) (EAv : Vec8) : Vec8 :=
  if i < len then
    queryEnergyRem ampQ len (i + 1)
      (vfmadd (vset1 (ampQ.getD i 0)) (vset1 (ampQ.getD i 0)) EAv)
  else EAv
termination_by len - i
decreasing_by omega

/-- The query energy `EA` as computed once by the AVX2 branches of
`compare_many_flat` (compare.c lines 193-206) and `compare_many` (316-329). -/
noncomputable def queryEnergyAvx2 (ampQ : List ℝ) (len : ℕ) : ℝ :=
  hsum256_ps (queryEnergyRem ampQ len (queryEnergyMain ampQ len 0 vzero vzero).1
    (vadd (queryEnergyMain ampQ len 0 vzero vzero).2.1
          (queryEnergyMain ampQ len 0 vzero vzero).2.2))

/-- Per-candidate main loop of the AVX2 `compare_many_flat`/`compare_many`
(compare.c lines 217-248 and 341-371): 16 samples per iteration, `sincos`-based
difference cosine, four accumulators. -/
noncomputable def candMainAvx2 (ampQ phaseQ a2 p2 : List ℝ) (len j : ℕ)
    (EB0 EB1 CR0 CR1 : Vec8) : ℕ × Vec8 × Vec8 × Vec8 × Vec8 :=
  if j + 16 ≤ len then
    candMainAvx2 ampQ phaseQ a2 p2 len (j + 16)
      (vfmadd (vload a2 j) (vload a2 j) EB0)
      (vfmadd (vload a2 (j + 8)) (vload a2 (j + 8)) EB1)
      (vfmadd (vmul (vload ampQ j) (vload a2 j))
        (vfmadd (vcos (vload p2 j)) (vcos (vload phaseQ j))
          (vmul (vsin (vload p2 j)) (vsin (vload phaseQ j)))) CR0)
      (vfmadd (vmul (vload ampQ (j + 8)) (vload a2 (j + 8)))
        (vfmadd (vcos (vload p2 (j + 8))) (vcos (vload phaseQ (j + 8)))
          (vmul (vsin (vload p2 (j + 8))) (vsin (vload phaseQ (j + 8))))) CR1)
  else (j, EB0, EB1, CR0, CR1)
termination_by len - j
decreasing_by omega

/-- Per-candidate remainder loop of the AVX2 `compare_many_flat`/`compare_many`
(compare.c lines 253-257 and 376-380): each leftover sample's `a2*a2` and
`a1*a2*cos` contributions are broadcast into all 8 lanes of the vector
accumulators before the horizontal reduction. -/
noncomputable def candRemAvx2 (ampQ phaseQ a2 p2 : List ℝ) (len j : ℕ)
    (EBv CRv : Vec8) : Vec8 × Vec8 :=
  if j < len then
    candRemAvx2 ampQ phaseQ a2 p2 len (j + 1)
      (vadd EBv (vset1 (a2.getD j 0 * a2.getD j 0)))
      (vadd CRv (vset1 (ampQ.getD j 0 * a2.getD j 0
        * Real.cos (p2.getD j 0 - phaseQ.getD j 0))))
  else (EBv, CRv)
termination_by len - j
decreasing_by omega

/-- Score of one candidate as computed by the AVX2 branch of
`compare_many_flat` (compare.c lines 209-271), given the precomputed `EA`. -/
noncomputable def candScoreAvx2 (ampQ phaseQ a2 p2 : List ℝ) (len : ℕ) (EA : ℝ) : ℝ :=
  scoreFromSums EA
    (hsum256_ps (candRemAvx2 ampQ phaseQ a2 p2 len
      (candMainAvx2 ampQ phaseQ a2 p2 len 0 vzero vzero vzero vzero).1
      (vadd (candMainAvx2 ampQ phaseQ a2 p2 len 0 vzero vzero vzero vzero).2.1
            (candMainAvx2 ampQ phaseQ a2 p2 len 0 vzero vzero vzero vzero).2.2.1)
      (vadd (candMainAvx2 ampQ phaseQ a2 p2 len 0 vzero vzero vzero vzero).2.2.2.1
            (candMainAvx2 ampQ phaseQ a2 p2 len 0 vzero vzero vzero vzero).2.2.2.2)).1)
    (hsum256_ps (candRemAvx2 ampQ phaseQ a2 p2 len
      (candMainAvx2 ampQ phaseQ a2 p2 len 0 vzero vzero vzero vzero).1
      (vadd (candMainAvx2 ampQ phaseQ a2 p2 len 0 vzero vzero vzero vzero).2.1
            (candMainAvx2 ampQ phaseQ a2 p2 len 0 vzero vzero vzero vzero).2.2.1)
      (vadd (candMainAvx2 ampQ phaseQ a2 p2 len 0 vzero vzero vzero vzero).2.2.2.1
            (candMainAvx2 ampQ phaseQ a2 p2 len 0 vzero vzero vzero vzero).2.2.2.2)).2)

/-- The AVX2 branch of `compare_many_flat` (compare.c lines 190-274): query
energy computed once, then per candidate the vector reduction and the shared
score arithmetic, written into `out[k]`. -/
noncomputable def compare_many_flat_avx2 (ampQ phaseQ ampAll phaseAll : Option (List ℝ))
    (len count : ℤ) (out : Option (List ℝ)) : Option (List ℝ) :=
  match ampQ, phaseQ, ampAll, phaseAll, out with
  | some ampQ, some phaseQ, some ampAll, some phaseAll, some out =>
    if len ≤ 0 ∨ count ≤ 0 ∨ MAX_LEN < len ∨ MAX_COUNT < count then some out
    else
      some ((List.range count.toNat).foldl (fun o k =>
        o.set k (candScoreAvx2 ampQ phaseQ (ampAll.drop (k * len.toNat))
          (phaseAll.drop (k * len.toNat)) len.toNat
          (queryEnergyAvx2 ampQ len.toNat))) out)
  | _, _, _, _, o => o

/-- Loop state of the AVX2 branch of `compare_with_phase_delta` (compare.c
lines 450-460): loop index, six 8-lane accumulators and the scalar `dsum`. -/
structure DeltaAvxState where
  i : ℕ
  EA0 : Vec8
  EA1 : Vec8
  EB0 : Vec8
  EB1 : Vec8
  CR0 : Vec8
  CR1 : Vec8
  dsum : ℝ

/-- Main loop of the AVX2 `compare_with_phase_delta` (compare.c lines 462-500):
16 samples per iteration; the raw deltas get `Sleef_cosf8_u10avx2` for the
cross term and the single-step mask wrap for `dsum`, which is horizontally
summed every iteration. -/
noncomputable def deltaMainAvx2 (A1 P1 A2 P2 : List ℝ) (len : ℕ)
    (s : DeltaAvxState) : DeltaAvxState :=
  if s.i + 16 ≤ len then
    deltaMainAvx2 A1 P1 A2 P2 len
      { i := s.i + 16
        EA0 := vfmadd (vload A1 s.i) (vload A1 s.i) s.EA0
        EA1 := vfmadd (vload A1 (s.i + 8)) (vload A1 (s.i + 8)) s.EA1
        EB0 := vfmadd (vload A2 s.i) (vload A2 s.i) s.EB0
        EB1 := vfmadd (vload A2 (s.i + 8)) (vload A2 (s.i + 8)) s.EB1
        CR0 := vfmadd (vmul (vload A1 s.i) (vload A2 s.i))
          (vcos (vsub (vload P2 s.i) (vload P1 s.i))) s.CR0
        CR1 := vfmadd (vmul (vload A1 (s.i + 8)) (vload A2 (s.i + 8)))
          (vcos (vsub (vload P2 (s.i + 8)) (vload P1 (s.i + 8)))) s.CR1
        dsum := s.dsum + hsum256_ps (vwrapAvx (vsub (vload P2 s.i) (vload P1 s.i)))
          + hsum256_ps (vwrapAvx (vsub (vload P2 (s.i + 8)) (vload P1 (s.i + 8)))) }
  else s
termination_by len - s.i
decreasing_by simp_all; omega

/-- Remainder loop of the AVX2 `compare_with_phase_delta` (compare.c lines
506-513): each leftover sample's `a*a`, `b*b` and `a*b*cos` contributions are
broadcast into all 8 lanes of the vector accumulators, while `dsum` uses the
correct scalar `wrap_pi`. -/
noncomputable def deltaRemAvx2 (A1 P1 A2 P2 : List ℝ) (len i : ℕ)
    (EAv EBv CRv : Vec8) (dsum : ℝ) : Vec8 × Vec8 × Vec8 × ℝ :=
  if i < len then
    deltaRemAvx2 A1 P1 A2 P2 len (i + 1)
      (vadd EAv (vset1 (A1.getD i 0 * A1.getD i 0)))
      (vadd EBv (vset1 (A2.getD i 0 * A2.getD i 0)))
      (vadd CRv (vset1 (A1.getD i 0 * A2.getD i 0
        * Real.cos (P2.getD i 0 - P1.getD i 0))))
      (dsum + wrap_pi (P2.getD i 0 - P1.getD i 0))
  else (EAv, EBv, CRv, dsum)
termination_by len - i
decreasing_by omega

/-- The AVX2 branch of `compare_with_phase_delta` (compare.c lines 448-531):
validation, main and remainder loops, horizontal reductions, then the shared
score arithmetic and the mean `dsum/len`. -/
noncomputable def compare_with_phase_delta_avx2 (A1 P1 A2 P2 : Option (List ℝ))
    (len : ℤ) : ℝ × ℝ :=
  match A1, P1, A2, P2 with
  | some A1, some P1, some A2, some P2 =>
    if len ≤ 0 ∨ MAX_LEN < len then (0, 0)
    else
      let L := len.toNat
      let m := deltaMainAvx2 A1 P1 A2 P2 L
        { i := 0, EA0 := vzero, EA1 := vzero, EB0 := vzero, EB1 := vzero,
          CR0 := vzero, CR1 := vzero, dsum := 0 }
      let r := deltaRemAvx2 A1 P1 A2 P2 L m.i
        (vadd m.EA0 m.EA1) (vadd m.EB0 m.EB1) (vadd m.CR0 m.CR1) m.dsum
      let EA := hsum256_ps r.1
      let EB := hsum256_ps r.2.1
      let cross := hsum256_ps r.2.2.1
      let denom := EA + EB
      if MIN_ENERGY < denom then
        (0.5 * ((EA + EB + 2 * cross) / denom) *
          (if MIN_ENERGY < EA ∧ MIN_ENERGY < EB then 2 * Real.sqrt (EA * EB) / denom else 0),
         r.2.2.2 / (L : ℝ))
      else (0, 0)
  | _, _, _, _ => (0, 0)

lemma neg_pi_lt_wrapUp (x : ℝ) : -Real.pi < wrapUp x := by
  induction x using wrapUp.induct with
  | case1 x h ih => rw [wrapUp, if_pos h]; exact ih
  | case2 x h => rw [wrapUp, if_neg h]; linarith [not_le.mp h]

lemma wrapDown_le_pi (x : ℝ) : wrapDown x ≤ Real.pi := by
  induction x using wrapDown.induct with
  | case1 x h ih => rw [wrapDown, if_pos h]; exact ih
  | case2 x h => rw [wrapDown, if_neg h]; exact le_of_not_lt h

lemma neg_pi_lt_wrapDown (x : ℝ) (hx : -Real.pi < x) : -Real.pi < wrapDown x := by
  have hpi := Real.pi_pos
  induction x using wrapDown.induct with
  | case1 x h ih =>
      rw [wrapDown, if_pos h]
      exact ih (by linarith)
  | case2 x h => rw [wrapDown, if_neg h]; exact hx

/-- The wrapped value always lands in the half-open interval `(-π, π]`. -/
lemma wrap_pi_mem_Ioc (x : ℝ) : wrap_pi x ∈ Set.Ioc (-Real.pi) Real.pi :=
  ⟨neg_pi_lt_wrapDown _ (neg_pi_lt_wrapUp x), wrapDown_le_pi _⟩

/-- For an argument already inside `(-π, π]` both loops are skipped. -/
lemma wrap_pi_of_mem (x : ℝ) (h1 : -Real.pi < x) (h2 : x ≤ Real.pi) : wrap_pi x = x := by
  rw [wrap_pi, wrapUp, if_neg (by linarith), wrapDown, if_neg (by linarith)]

lemma wrap_pi_zero : wrap_pi 0 = 0 :=
  wrap_pi_of_mem 0 (by linarith [Real.pi_pos]) (le_of_lt Real.pi_pos)

lemma energySum_nonneg (a : List ℝ) (len : ℕ) : 0 ≤ energySum a len :=
  Finset.sum_nonneg fun _ _ => mul_self_nonneg _

lemma getD_set_self (l : List ℝ) (k : ℕ) (x : ℝ) (h : k < l.length) :
    (l.set k x).getD k 0 = x := by
  simp [List.getD_eq_getElem?_getD, List.getElem?_set_self', List.getElem?_eq_getElem h]

lemma getD_set_ne (l : List ℝ) (k j : ℕ) (x : ℝ) (h : j ≠ k) :
    (l.set k x).getD j 0 = l.getD j 0 := by
  simp [List.getD_eq_getElem?_getD, List.getElem?_set_ne (by omega : k ≠ j)]

lemma foldl_set_length (g : ℕ → ℝ) (l : List ℕ) (out : List ℝ) :
    (l.foldl (fun o k => o.set k (g k)) out).length = out.length := by
  induction l generalizing out with
  | nil => rfl
  | cons a t ih => simpa using ih (out.set a (g a))

lemma foldl_range_set_getD (g : ℕ → ℝ) (n : ℕ) :
    ∀ (j : ℕ) (out : List ℝ), j < n → j < out.length →
    ((List.range n).foldl (fun o k => o.set k (g k)) out).getD j 0 = g j := by
  induction n with
  | zero => intro j out hj _; omega
  | succ n ih =>
    intro j out hj hl
    rw [List.range_succ, List.foldl_append, List.foldl_cons, List.foldl_nil]
    by_cases hjn : j = n
    · subst hjn
      exact getD_set_self _ _ _ (by rw [foldl_set_length]; exact hl)
    · rw [getD_set_ne _ _ _ _ hjn]
      exact ih j out (by omega) hl

/-- Slot `k` of a valid `compare_many_flat` call holds the score of the query
against the `k`-th contiguous candidate. -/
lemma compare_many_flat_getD (ampQ phaseQ ampAll phaseAll : List ℝ) (len count : ℤ)
    (out : List ℝ) (k : ℕ)
    (hval : ¬ (len ≤ 0 ∨ count ≤ 0 ∨ MAX_LEN < len ∨ MAX_COUNT < count))
    (hk : k < count.toNat) (hko : k < out.length) :
    ((compare_many_flat (some ampQ) (some phaseQ) (some ampAll) (some phaseAll)
        len count (some out)).getD []).getD k 0
      = scoreFromSums (energySum ampQ len.toNat)
          (energySum (ampAll.drop (k * len.toNat)) len.toNat)
          (crossSum ampQ phaseQ (ampAll.drop (k * len.toNat))
            (phaseAll.drop (k * len.toNat)) len.toNat) := by
  rw [compare_many_flat, if_neg hval, Option.getD_some]
  exact foldl_range_set_getD _ _ _ _ hk hko

/-- Slot `k` of a valid `compare_many` call: the candidate's score, or `0` when
either of its references is null. -/
lemma compare_many_getD (ampQ phaseQ : List ℝ) (ampList phaseList : List (Option (List ℝ)))
    (len count : ℤ) (out : List ℝ) (k : ℕ)
    (hval : ¬ (len ≤ 0 ∨ count ≤ 0 ∨ MAX_LEN < len ∨ MAX_COUNT < count))
    (hk : k < count.toNat) (hko : k < out.length) :
    ((compare_many (some ampQ) (some phaseQ) (some ampList) (some phaseList)
        len count (some out)).getD []).getD k 0
      = match ampList.getD k none, phaseList.getD k none with
        | some a2, some p2 =>
          scoreFromSums (energySum ampQ len.toNat) (energySum a2 len.toNat)
            (crossSum ampQ phaseQ a2 p2 len.toNat)
        | _, _ => 0 := by
  rw [compare_many, if_neg hval, Option.getD_some]
  exact foldl_range_set_getD
    (fun k => match ampList.getD k none, phaseList.getD k none with
      | some a2, some p2 =>
        scoreFromSums (energySum ampQ len.toNat) (energySum a2 len.toNat)
          (crossSum ampQ phaseQ a2 p2 len.toNat)
      | _, _ => 0) _ _ _ hk hko

lemma MIN_ENERGY_pos : (0:ℝ) < MIN_ENERGY := by norm_num [MIN_ENERGY]

lemma getD_replicate (n i : ℕ) (a : ℝ) (h : i < n) : (List.replicate n a).getD i 0 = a := by
  simp [List.getD_eq_getElem?_getD, List.getElem?_replicate, h]

/-- The amplitude-balance factor can only be nonzero once both individual
energies clear the floor; with the accumulators' nonnegativity this makes the
degenerate branch of `scoreFromSums` agree with the closed formula. -/
lemma scoreFromSums_zero_of_degenerate (EA EB cross : ℝ) (h : EA + EB ≤ MIN_ENERGY) :
    scoreFromSums EA EB cross = 0 := by
  simp only [scoreFromSums]
  rw [if_neg (not_lt.mpr h)]

lemma scoreFromSums_self (EA : ℝ) (h : MIN_ENERGY < EA) : scoreFromSums EA EA EA = 1 := by
  have hpos : (0:ℝ) < EA := lt_trans MIN_ENERGY_pos h
  have hd : MIN_ENERGY < EA + EA := by linarith
  have hand : MIN_ENERGY < EA ∧ MIN_ENERGY < EA := ⟨h, h⟩
  simp only [scoreFromSums]
  rw [if_pos hd, if_pos hand, Real.sqrt_mul_self hpos.le]
  field_simp
  ring

/-- On the non-degenerate branch `compare_scalar_cosdelta` is literally the
`base * balance` closed formula; on the degenerate branch both sides are `0`
because `EA ≤ denom ≤ MIN_ENERGY` forces the balance factor to `0`. -/
lemma compare_scalar_cosdelta_formula (a1 p1 a2 p2 : List ℝ) (len : ℕ) :
    compare_scalar_cosdelta a1 p1 a2 p2 len =
      0.5 * ((energySum a1 len + energySum a2 len + 2 * crossSum a1 p1 a2 p2 len)
          / (energySum a1 len + energySum a2 len)) *
        (if MIN_ENERGY < energySum a1 len ∧ MIN_ENERGY < energySum a2 len
         then 2 * Real.sqrt (energySum a1 len * energySum a2 len)
            / (energySum a1 len + energySum a2 len)
         else 0) := by
  have hEB := energySum_nonneg a2 len
  simp only [compare_scalar_cosdelta, scoreFromSums]
  by_cases hd : MIN_ENERGY < energySum a1 len + energySum a2 len
  · rw [if_pos hd]
  · have hbal : ¬ (MIN_ENERGY < energySum a1 len ∧ MIN_ENERGY < energySum a2 len) := by
      rintro ⟨hA, _⟩
      exact hd (by linarith)
    rw [if_neg hd, if_neg hbal, mul_zero]

lemma two_sqrt_mul_le_add (EA EB : ℝ) (hEA : 0 ≤ EA) (hEB : 0 ≤ EB) :
    2 * Real.sqrt (EA * EB) ≤ EA + EB := by
  rw [Real.sqrt_mul hEA]
  nlinarith [Real.sq_sqrt hEA, Real.sq_sqrt hEB, sq_nonneg (Real.sqrt EA - Real.sqrt EB)]

/-- Cauchy-Schwarz bound on the accumulated cross term: `|cross| ≤ √(EA*EB)`. -/
lemma crossSum_abs_le (a1 p1 a2 p2 : List ℝ) (n : ℕ) :
    |crossSum a1 p1 a2 p2 n| ≤ Real.sqrt (energySum a1 n * energySum a2 n) := by
  have habs : |crossSum a1 p1 a2 p2 n|
      ≤ ∑ i in Finset.range n, |a1.getD i 0| * |a2.getD i 0| := by
    refine (Finset.abs_sum_le_sum_abs _ _).trans (Finset.sum_le_sum ?_)
    intro i _
    rw [abs_mul, abs_mul]
    have hc := Real.abs_cos_le_one (p2.getD i 0 - p1.getD i 0)
    have hnn : 0 ≤ |a1.getD i 0| * |a2.getD i 0| := mul_nonneg (abs_nonneg _) (abs_nonneg _)
    calc |a1.getD i 0| * |a2.getD i 0| * |Real.cos (p2.getD i 0 - p1.getD i 0)|
        ≤ |a1.getD i 0| * |a2.getD i 0| * 1 := mul_le_mul_of_nonneg_left hc hnn
      _ = |a1.getD i 0| * |a2.getD i 0| := mul_one _
  have hcs := Real.sum_mul_le_sqrt_mul_sqrt (Finset.range n)
    (fun i => |a1.getD i 0|) (fun i => |a2.getD i 0|)
  have h1 : ∑ i in Finset.range n, |a1.getD i 0| ^ 2 = energySum a1 n := by
    refine Finset.sum_congr rfl fun i _ => ?_
    rw [sq_abs, pow_two]
  have h2 : ∑ i in Finset.range n, |a2.getD i 0| ^ 2 = energySum a2 n := by
    refine Finset.sum_congr rfl fun i _ => ?_
    rw [sq_abs, pow_two]
  rw [h1, h2] at hcs
  calc |crossSum a1 p1 a2 p2 n| ≤ ∑ i in Finset.range n, |a1.getD i 0| * |a2.getD i 0| := habs
    _ ≤ Real.sqrt (energySum a1 n) * Real.sqrt (energySum a2 n) := hcs
    _ = Real.sqrt (energySum a1 n * energySum a2 n) :=
        (Real.sqrt_mul (energySum_nonneg _ _) _).symm

/-- Exact-arithmetic boundedness of the score arithmetic, given nonnegative
energies and the Cauchy-Schwarz bound on the cross term. -/
lemma scoreFromSums_bounds (EA EB cross : ℝ) (hEA : 0 ≤ EA) (hEB : 0 ≤ EB)
    (hc : |cross| ≤ Real.sqrt (EA * EB)) :
    0 ≤ scoreFromSums EA EB cross ∧ scoreFromSums EA EB cross ≤ 1 := by
  have hg0 : 0 ≤ Real.sqrt (EA * EB) := Real.sqrt_nonneg _
  have hgd : 2 * Real.sqrt (EA * EB) ≤ EA + EB := two_sqrt_mul_le_add EA EB hEA hEB
  have hcu : cross ≤ Real.sqrt (EA * EB) := (abs_le.mp hc).2
  have hcl : -Real.sqrt (EA * EB) ≤ cross := (abs_le.mp hc).1
  simp only [scoreFromSums]
  by_cases hd : MIN_ENERGY < EA + EB
  · rw [if_pos hd]
    have hdpos : 0 < EA + EB := lt_trans MIN_ENERGY_pos hd
    by_cases hbal : MIN_ENERGY < EA ∧ MIN_ENERGY < EB
    · rw [if_pos hbal]
      have hIF : 0 ≤ EA + EB + 2 * cross := by nlinarith
      constructor
      · apply mul_nonneg (mul_nonneg (by norm_num) (div_nonneg hIF hdpos.le))
        exact div_nonneg (by positivity) hdpos.le
      · have heq : 0.5 * ((EA + EB + 2 * cross) / (EA + EB))
              * (2 * Real.sqrt (EA * EB) / (EA + EB))
            = ((EA + EB + 2 * cross) * Real.sqrt (EA * EB)) / ((EA + EB) * (EA + EB)) := by
          field_simp
          ring
        rw [heq, div_le_one (by positivity)]
        nlinarith [mul_le_mul_of_nonneg_right
            (show EA + EB + 2 * cross ≤ (EA + EB) + 2 * Real.sqrt (EA * EB) by linarith) hg0,
          mul_le_mul_of_nonneg_left hgd hdpos.le,
          mul_le_mul_of_nonneg_right hgd hg0]
    · rw [if_neg hbal, mul_zero]
      exact ⟨le_refl 0, zero_le_one⟩
  · rw [if_neg hd]
    exact ⟨le_refl 0, zero_le_one⟩

lemma crossSum_self (a p : List ℝ) (n : ℕ) : crossSum a p a p n = energySum a n := by
  refine Finset.sum_congr rfl fun i _ => ?_
  rw [sub_self, Real.cos_zero, mul_one]

lemma deltaSum_self (p : List ℝ) (n : ℕ) : deltaSum p p n = 0 := by
  refine Finset.sum_eq_zero fun i _ => ?_
  rw [sub_self, wrap_pi_zero]

/-- On the non-degenerate branch the phase-delta scalar kernel returns the
scalar score paired with the linear mean of wrapped deltas. -/
lemma compare_with_delta_scalar_valid (A1 P1 A2 P2 : List ℝ) (len : ℕ)
    (hE : MIN_ENERGY < energySum A1 len + energySum A2 len) :
    compare_with_delta_scalar A1 P1 A2 P2 len =
      (compare_scalar_cosdelta A1 P1 A2 P2 len, deltaSum P1 P2 len / (len : ℝ)) := by
  simp only [compare_with_delta_scalar, compare_scalar_cosdelta, scoreFromSums]
  rw [if_neg (not_le.mpr hE), if_pos hE]

lemma compare_scalar_cosdelta_bounds (a1 p1 a2 p2 : List ℝ) (n : ℕ) :
    0 ≤ compare_scalar_cosdelta a1 p1 a2 p2 n ∧ compare_scalar_cosdelta a1 p1 a2 p2 n ≤ 1 :=
  scoreFromSums_bounds _ _ _ (energySum_nonneg _ _) (energySum_nonneg _ _)
    (crossSum_abs_le _ _ _ _ _)

lemma fin8_v3 : (((3 : Fin 8) : ℕ)) = 3 := rfl

lemma fin8_v4 : (((4 : Fin 8) : ℕ)) = 4 := rfl

lemma fin8_v5 : (((5 : Fin 8) : ℕ)) = 5 := rfl

lemma fin8_v6 : (((6 : Fin 8) : ℕ)) = 6 := rfl

lemma fin8_v7 : (((7 : Fin 8) : ℕ)) = 7 := rfl

lemma queryEnergyMain_ones17 :
    queryEnergyMain (List.replicate 17 (1:ℝ)) 17 0 vzero vzero
      = (16, vfmadd (vload (List.replicate 17 1) 0) (vload (List.replicate 17 1) 0) vzero,
         vfmadd (vload (List.replicate 17 1) 8) (vload (List.replicate 17 1) 8) vzero) := by
  rw [queryEnergyMain, if_pos (by norm_num), queryEnergyMain, if_neg (by norm_num)]

lemma queryEnergyAvx2_ones17 : queryEnergyAvx2 (List.replicate 17 (1:ℝ)) 17 = 24 := by
  rw [queryEnergyAvx2, queryEnergyMain_ones17]
  rw [show ((16, vfmadd (vload (List.replicate 17 (1:ℝ)) 0) (vload (List.replicate 17 1) 0) vzero,
      vfmadd (vload (List.replicate 17 1) 8) (vload (List.replicate 17 1) 8) vzero) :
      ℕ × Vec8 × Vec8).1 = 16 from rfl]
  rw [queryEnergyRem, if_pos (by norm_num), queryEnergyRem, if_neg (by norm_num)]
  simp [hsum256_ps, vfmadd, vadd, vset1, vload, vzero, getD_replicate,
    fin8_v3, fin8_v4, fin8_v5, fin8_v6, fin8_v7]
  norm_num

lemma getD_pi16 (i : ℕ) (h : i < 16) :
    (List.replicate 16 Real.pi ++ [(0:ℝ)]).getD i 0 = Real.pi := by
  rw [List.getD_eq_getElem?_getD, List.getElem?_append_left (by simp [h]),
    ← List.getD_eq_getElem?_getD, getD_replicate _ _ _ h]

lemma getD_pi16_last : (List.replicate 16 Real.pi ++ [(0:ℝ)]).getD 16 0 = 0 := by
  rw [List.getD_eq_getElem?_getD, List.getElem?_append_right (by simp)]
  simp

lemma energySum_ones17 : energySum (List.replicate 17 (1:ℝ)) 17 = 17 := by
  simp [energySum, Finset.sum_range_succ, getD_replicate]
  norm_num

lemma crossSum_ones17 :
    crossSum (List.replicate 17 (1:ℝ)) (List.replicate 17 0) (List.replicate 17 1)
      (List.replicate 16 Real.pi ++ [0]) 17 = -15 := by
  simp only [crossSum, Finset.sum_range_succ, Finset.sum_range_zero]
  rw [getD_pi16 0 (by norm_num), getD_pi16 1 (by norm_num), getD_pi16 2 (by norm_num),
    getD_pi16 3 (by norm_num), getD_pi16 4 (by norm_num), getD_pi16 5 (by norm_num),
    getD_pi16 6 (by norm_num), getD_pi16 7 (by norm_num), getD_pi16 8 (by norm_num),
    getD_pi16 9 (by norm_num), getD_pi16 10 (by norm_num), getD_pi16 11 (by norm_num),
    getD_pi16 12 (by norm_num), getD_pi16 13 (by norm_num), getD_pi16 14 (by norm_num),
    getD_pi16 15 (by norm_num), getD_pi16_last]
  norm_num [getD_replicate, Real.cos_pi]

lemma deltaSum_ones17 :
    deltaSum (List.replicate 17 (0:ℝ)) (List.replicate 16 Real.pi ++ [0]) 17
      = 16 * Real.pi := by
  have hpi := Real.pi_pos
  have hwpi : wrap_pi Real.pi = Real.pi :=
    wrap_pi_of_mem Real.pi (by linarith) (le_refl _)
  simp only [deltaSum, Finset.sum_range_succ, Finset.sum_range_zero]
  rw [getD_pi16 0 (by norm_num), getD_pi16 1 (by norm_num), getD_pi16 2 (by norm_num),
    getD_pi16 3 (by norm_num), getD_pi16 4 (by norm_num), getD_pi16 5 (by norm_num),
    getD_pi16 6 (by norm_num), getD_pi16 7 (by norm_num), getD_pi16 8 (by norm_num),
    getD_pi16 9 (by norm_num), getD_pi16 10 (by norm_num), getD_pi16 11 (by norm_num),
    getD_pi16 12 (by norm_num), getD_pi16 13 (by norm_num), getD_pi16 14 (by norm_num),
    getD_pi16 15 (by norm_num), getD_pi16_last]
  norm_num [getD_replicate, sub_zero, wrap_pi_zero]
  rw [hwpi]
  ring

lemma scoreFromSums_half_energy : scoreFromSums 17 17 (-15) = 1 / 17 := by
  have h1 : MIN_ENERGY < (17:ℝ) + 17 := by norm_num [MIN_ENERGY]
  have h2 : MIN_ENERGY < (17:ℝ) ∧ MIN_ENERGY < (17:ℝ) := by norm_num [MIN_ENERGY]
  simp only [scoreFromSums]
  rw [if_pos h1, if_pos h2, Real.sqrt_mul_self (by norm_num : (0:ℝ) ≤ 17)]
  norm_num

lemma scoreFromSums_avx_energy : scoreFromSums 24 24 (-8) = 1 / 3 := by
  have h1 : MIN_ENERGY < (24:ℝ) + 24 := by norm_num [MIN_ENERGY]
  have h2 : MIN_ENERGY < (24:ℝ) ∧ MIN_ENERGY < (24:ℝ) := by norm_num [MIN_ENERGY]
  simp only [scoreFromSums]
  rw [if_pos h1, if_pos h2, Real.sqrt_mul_self (by norm_num : (0:ℝ) ≤ 24)]
  norm_num

lemma candMainAvx2_ones17 :
    candMainAvx2 (List.replicate 17 (1:ℝ)) (List.replicate 17 0) (List.replicate 17 1)
      (List.replicate 16 Real.pi ++ [0]) 17 0 vzero vzero vzero vzero
    = (16, (fun _ => (1:ℝ)), (fun _ => (1:ℝ)), (fun _ => (-1:ℝ)), (fun _ => (-1:ℝ))) := by
  rw [candMainAvx2, if_pos (by norm_num), candMainAvx2, if_neg (by norm_num)]
  simp only [Prod.mk.injEq, true_and]
  refine ⟨?_, ?_, ?_, ?_⟩
  · funext l
    have hl := l.isLt
    simp only [vfmadd, vload, vzero]
    rw [getD_replicate _ _ _ (by omega)]
    norm_num
  · funext l
    have hl := l.isLt
    simp only [vfmadd, vload, vzero]
    rw [getD_replicate _ _ _ (by omega)]
    norm_num
  · funext l
    have hl := l.isLt
    simp only [vfmadd, vload, vzero, vmul, vcos, vsin]
    rw [getD_replicate _ _ _ (show 0 + l.val < 17 by omega),
      getD_replicate _ _ _ (show 0 + l.val < 17 by omega),
      getD_pi16 _ (show 0 + l.val < 16 by omega)]
    norm_num [Real.cos_pi, Real.sin_pi]
  · funext l
    have hl := l.isLt
    simp only [vfmadd, vload, vzero, vmul, vcos, vsin]
    rw [getD_replicate _ _ _ (show 8 + l.val < 17 by omega),
      getD_replicate _ _ _ (show 8 + l.val < 17 by omega),
      getD_pi16 _ (show 8 + l.val < 16 by omega)]
    norm_num [Real.cos_pi, Real.sin_pi]

lemma candRemAvx2_ones17 :
    candRemAvx2 (List.replicate 17 (1:ℝ)) (List.replicate 17 0) (List.replicate 17 1)
      (List.replicate 16 Real.pi ++ [0]) 17 16
      (vadd (fun _ => (1:ℝ)) (fun _ => (1:ℝ))) (vadd (fun _ => (-1:ℝ)) (fun _ => (-1:ℝ)))
    = ((fun _ => (3:ℝ)), (fun _ => (-1:ℝ))) := by
  rw [candRemAvx2, if_pos (by norm_num), candRemAvx2, if_neg (by norm_num)]
  simp only [Prod.mk.injEq]
  constructor
  · funext l
    simp only [vadd, vset1]
    rw [getD_replicate _ _ _ (by norm_num : (16:ℕ) < 17)]
    norm_num
  · funext l
    simp only [vadd, vset1]
    rw [getD_replicate 17 16 (1:ℝ) (by norm_num), getD_replicate 17 16 (0:ℝ) (by norm_num),
      getD_pi16_last]
    norm_num

lemma candScoreAvx2_ones17 :
    candScoreAvx2 (List.replicate 17 (1:ℝ)) (List.replicate 17 0) (List.replicate 17 1)
      (List.replicate 16 Real.pi ++ [0]) 17 24 = 1 / 3 := by
  rw [candScoreAvx2, candMainAvx2_ones17]
  simp only []
  rw [candRemAvx2_ones17]
  simp only []
  have hEB : hsum256_ps (fun _ => (3:ℝ)) = 24 := by
    simp [hsum256_ps]
    norm_num
  have hCR : hsum256_ps (fun _ => (-1:ℝ)) = -8 := by
    simp [hsum256_ps]
    norm_num
  rw [hEB, hCR]
  exact scoreFromSums_avx_energy

lemma wrap_pi_avx2_pi : wrap_pi_avx2 Real.pi = Real.pi := by
  have hpi := Real.pi_pos
  rw [wrap_pi_avx2, if_neg (lt_irrefl _), if_neg (by linarith)]
  ring

lemma deltaMainAvx2_ones17 :
    deltaMainAvx2 (List.replicate 17 (1:ℝ)) (List.replicate 17 0) (List.replicate 17 1)
      (List.replicate 16 Real.pi ++ [0]) 17
      { i := 0, EA0 := vzero, EA1 := vzero, EB0 := vzero, EB1 := vzero,
        CR0 := vzero, CR1 := vzero, dsum := 0 }
    = { i := 16, EA0 := fun _ => 1, EA1 := fun _ => 1, EB0 := fun _ => 1,
        EB1 := fun _ => 1, CR0 := fun _ => -1, CR1 := fun _ => -1,
        dsum := 16 * Real.pi } := by
  rw [deltaMainAvx2, if_pos (by norm_num), deltaMainAvx2, if_neg (by norm_num)]
  simp only [DeltaAvxState.mk.injEq, true_and]
  refine ⟨?_, ?_, ?_, ?_, ?_, ?_, ?_⟩
  · funext l
    have hl := l.isLt
    simp only [vfmadd, vload, vzero]
    rw [getD_replicate _ _ _ (by omega)]
    norm_num
  · funext l
    have hl := l.isLt
    simp only [vfmadd, vload, vzero]
    rw [getD_replicate _ _ _ (by omega)]
    norm_num
  · funext l
    have hl := l.isLt
    simp only [vfmadd, vload, vzero]
    rw [getD_replicate _ _ _ (by omega)]
    norm_num
  · funext l
    have hl := l.isLt
    simp only [vfmadd, vload, vzero]
    rw [getD_replicate _ _ _ (by omega)]
    norm_num
  · funext l
    have hl := l.isLt
    simp only [vfmadd, vload, vzero, vmul, vcos, vsub]
    rw [getD_replicate _ _ _ (show 0 + l.val < 17 by omega),
      getD_replicate _ _ _ (show 0 + l.val < 17 by omega),
      getD_pi16 _ (show 0 + l.val < 16 by omega)]
    norm_num [Real.cos_pi]
  · funext l
    have hl := l.isLt
    simp only [vfmadd, vload, vzero, vmul, vcos, vsub]
    rw [getD_replicate _ _ _ (show 8 + l.val < 17 by omega),
      getD_replicate _ _ _ (show 8 + l.val < 17 by omega),
      getD_pi16 _ (show 8 + l.val < 16 by omega)]
    norm_num [Real.cos_pi]
  · simp only [hsum256_ps, vwrapAvx, vsub, vload, Fin.val_zero, Fin.val_one, Fin.val_two,
      fin8_v3, fin8_v4, fin8_v5, fin8_v6, fin8_v7, Nat.reduceAdd, Nat.add_zero]
    rw [getD_pi16 0 (by norm_num), getD_pi16 1 (by norm_num), getD_pi16 2 (by norm_num),
      getD_pi16 3 (by norm_num), getD_pi16 4 (by norm_num), getD_pi16 5 (by norm_num),
      getD_pi16 6 (by norm_num), getD_pi16 7 (by norm_num), getD_pi16 8 (by norm_num),
      getD_pi16 9 (by norm_num), getD_pi16 10 (by norm_num), getD_pi16 11 (by norm_num),
      getD_pi16 12 (by norm_num), getD_pi16 13 (by norm_num), getD_pi16 14 (by norm_num),
      getD_pi16 15 (by norm_num)]
    norm_num [getD_replicate, wrap_pi_avx2_pi]
    ring

lemma deltaRemAvx2_ones17 :
    deltaRemAvx2 (List.replicate 17 (1:ℝ)) (List.replicate 17 0) (List.replicate 17 1)
      (List.replicate 16 Real.pi ++ [0]) 17 16
      (vadd (fun _ => (1:ℝ)) (fun _ => (1:ℝ))) (vadd (fun _ => (1:ℝ)) (fun _ => (1:ℝ)))
      (vadd (fun _ => (-1:ℝ)) (fun _ => (-1:ℝ))) (16 * Real.pi)
    = ((fun _ => (3:ℝ)), (fun _ => (3:ℝ)), (fun _ => (-1:ℝ)), 16 * Real.pi) := by
  rw [deltaRemAvx2, if_pos (by norm_num), deltaRemAvx2, if_neg (by norm_num)]
  simp only [Prod.mk.injEq]
  refine ⟨?_, ?_, ?_, ?_⟩
  · funext l
    simp only [vadd, vset1]
    rw [getD_replicate _ _ _ (by norm_num : (16:ℕ) < 17)]
    norm_num
  · funext l
    simp only [vadd, vset1]
    rw [getD_replicate _ _ _ (by norm_num : (16:ℕ) < 17)]
    norm_num
  · funext l
    simp only [vadd, vset1]
    rw [getD_replicate 17 16 (1:ℝ) (by norm_num), getD_pi16_last,
      getD_replicate 17 16 (0:ℝ) (by norm_num)]
    norm_num
  · rw [getD_pi16_last, getD_replicate 17 16 (0:ℝ) (by norm_num)]
    rw [sub_zero, wrap_pi_zero, add_zero]

lemma cos_four_pi : Real.cos (4 * Real.pi) = 1 := by
  rw [show (4:ℝ) * Real.pi = 2 * Real.pi + 2 * Real.pi by ring, Real.cos_add_two_pi,
    Real.cos_two_pi]

lemma wrap_pi_avx2_four_pi : wrap_pi_avx2 (4 * Real.pi) = 2 * Real.pi := by
  have hpi := Real.pi_pos
  rw [wrap_pi_avx2, if_pos (by linarith), if_neg (by linarith)]
  ring

lemma wrap_pi_avx2_neg_pi : wrap_pi_avx2 (-Real.pi) = -Real.pi := by
  have hpi := Real.pi_pos
  rw [wrap_pi_avx2, if_neg (by linarith), if_neg (lt_irrefl _)]
  ring

lemma wrap_pi_four_pi : wrap_pi (4 * Real.pi) = 0 := by
  have hpi := Real.pi_pos
  rw [wrap_pi, wrapUp, if_neg (by linarith), wrapDown, if_pos (by linarith),
    show 4 * Real.pi - 2 * Real.pi = 2 * Real.pi by ring, wrapDown, if_pos (by linarith),
    show 2 * Real.pi - 2 * Real.pi = 0 by ring, wrapDown, if_neg (by linarith)]

lemma energySum_ones16 : energySum (List.replicate 16 (1:ℝ)) 16 = 16 := by
  simp [energySum, Finset.sum_range_succ, getD_replicate]
  norm_num

lemma crossSum_fourpi :
    crossSum (List.replicate 16 (1:ℝ)) (List.replicate 16 0) (List.replicate 16 1)
      (List.replicate 16 (4 * Real.pi)) 16 = 16 := by
  simp [crossSum, Finset.sum_range_succ, getD_replicate, cos_four_pi]
  norm_num

lemma deltaSum_fourpi :
    deltaSum (List.replicate 16 (0:ℝ)) (List.replicate 16 (4 * Real.pi)) 16 = 0 := by
  simp [deltaSum, Finset.sum_range_succ, getD_replicate, wrap_pi_four_pi]

lemma deltaMainAvx2_fourpi :
    deltaMainAvx2 (List.replicate 16 (1:ℝ)) (List.replicate 16 0) (List.replicate 16 1)
      (List.replicate 16 (4 * Real.pi)) 16
      { i := 0, EA0 := vzero, EA1 := vzero, EB0 := vzero, EB1 := vzero,
        CR0 := vzero, CR1 := vzero, dsum := 0 }
    = { i := 16, EA0 := fun _ => 1, EA1 := fun _ => 1, EB0 := fun _ => 1,
        EB1 := fun _ => 1, CR0 := fun _ => 1, CR1 := fun _ => 1,
        dsum := 32 * Real.pi } := by
  rw [deltaMainAvx2, if_pos (by norm_num), deltaMainAvx2, if_neg (by norm_num)]
  simp only [DeltaAvxState.mk.injEq, true_and]
  refine ⟨?_, ?_, ?_, ?_, ?_, ?_, ?_⟩
  · funext l
    have hl := l.isLt
    simp only [vfmadd, vload, vzero]
    rw [getD_replicate _ _ _ (by omega)]
    norm_num
  · funext l
    have hl := l.isLt
    simp only [vfmadd, vload, vzero]
    rw [getD_replicate _ _ _ (by omega)]
    norm_num
  · funext l
    have hl := l.isLt
    simp only [vfmadd, vload, vzero]
    rw [getD_replicate _ _ _ (by omega)]
    norm_num
  · funext l
    have hl := l.isLt
    simp only [vfmadd, vload, vzero]
    rw [getD_replicate _ _ _ (by omega)]
    norm_num
  · funext l
    have hl := l.isLt
    simp only [vfmadd, vload, vzero, vmul, vcos, vsub]
    rw [getD_replicate _ _ _ (show 0 + l.val < 16 by omega),
      getD_replicate _ _ _ (show 0 + l.val < 16 by omega),
      getD_replicate _ _ _ (show 0 + l.val < 16 by omega)]
    norm_num [cos_four_pi]
  · funext l
    have hl := l.isLt
    simp only [vfmadd, vload, vzero, vmul, vcos, vsub]
    rw [getD_replicate _ _ _ (show 8 + l.val < 16 by omega),
      getD_replicate _ _ _ (show 8 + l.val < 16 by omega),
      getD_replicate _ _ _ (show 8 + l.val < 16 by omega)]
    norm_num [cos_four_pi]
  · simp only [hsum256_ps, vwrapAvx, vsub, vload, Fin.val_zero, Fin.val_one, Fin.val_two,
      fin8_v3, fin8_v4, fin8_v5, fin8_v6, fin8_v7, Nat.reduceAdd, Nat.add_zero]
    norm_num [getD_replicate, wrap_pi_avx2_four_pi]
    ring

/-- C1: for every pair of equal-length patterns with `0 < len ≤ MAX_LEN` and
non-null buffers, `compare_wave_patterns` returns
`0.5*((EA+EB+2*cross)/(EA+EB))` times the balance factor
(`2*√(EA*EB)/(EA+EB)` when both `EA` and `EB` exceed `MIN_ENERGY`, else `0`),
with `EA`, `EB`, `cross` the §4.1 accumulator sums; in particular Scenario A
(`amp1=amp2=[1,1,1,1]`, `phase1=phase2=[0,0,0,0]`) scores exactly `1.0`. -/
theorem compare_wave_patterns_formula_c1 :
    (∀ (a1 p1 a2 p2 : List ℝ) (len : ℤ), 0 < len → len ≤ MAX_LEN →
      a1.length = len.toNat → p1.length = len.toNat →
      a2.length = len.toNat → p2.length = len.toNat →
      compare_wave_patterns (some a1) (some p1) (some a2) (some p2) len =
        0.5 * ((energySum a1 len.toNat + energySum a2 len.toNat
            + 2 * crossSum a1 p1 a2 p2 len.toNat)
          / (energySum a1 len.toNat + energySum a2 len.toNat)) *
        (if MIN_ENERGY < energySum a1 len.toNat ∧ MIN_ENERGY < energySum a2 len.toNat
         then 2 * Real.sqrt (energySum a1 len.toNat * energySum a2 len.toNat)
            / (energySum a1 len.toNat + energySum a2 len.toNat)
         else 0)) ∧
    compare_wave_patterns (some [1, 1, 1, 1]) (some [0, 0, 0, 0])
      (some [1, 1, 1, 1]) (some [0, 0, 0, 0]) 4 = 1 := by
  constructor
  · intro a1 p1 a2 p2 len h0 hmax _ _ _ _
    simp only [compare_wave_patterns]
    rw [if_neg (by simp only [not_or, not_le, not_lt]; exact ⟨h0, hmax⟩)]
    exact compare_scalar_cosdelta_formula a1 p1 a2 p2 len.toNat
  · simp only [compare_wave_patterns]
    rw [if_neg (by norm_num [MAX_LEN])]
    show compare_scalar_cosdelta [1, 1, 1, 1] [0, 0, 0, 0] [1, 1, 1, 1] [0, 0, 0, 0] 4 = 1
    have hEA : energySum [(1:ℝ), 1, 1, 1] 4 = 4 := by
      simp [energySum, Finset.sum_range_succ, List.getD]
      norm_num
    have hcr : crossSum [(1:ℝ), 1, 1, 1] [0, 0, 0, 0] [1, 1, 1, 1] [0, 0, 0, 0] 4 = 4 := by
      simp [crossSum, Finset.sum_range_succ, List.getD]
      norm_num
    simp only [compare_scalar_cosdelta]
    rw [hEA, hcr]
    exact scoreFromSums_self 4 (by norm_num [MIN_ENERGY])

theorem compare_wave_patterns_formula_c1_witness :
    (0 : ℤ) < 1 ∧
    compare_wave_patterns (some [2]) (some [0]) (some [2]) (some [0]) 1 =
      0.5 * ((energySum [2] (1:ℤ).toNat + energySum [2] (1:ℤ).toNat
          + 2 * crossSum [2] [0] [2] [0] (1:ℤ).toNat)
        / (energySum [2] (1:ℤ).toNat + energySum [2] (1:ℤ).toNat)) *
      (if MIN_ENERGY < energySum [2] (1:ℤ).toNat ∧ MIN_ENERGY < energySum [2] (1:ℤ).toNat
       then 2 * Real.sqrt (energySum [2] (1:ℤ).toNat * energySum [2] (1:ℤ).toNat)
          / (energySum [2] (1:ℤ).toNat + energySum [2] (1:ℤ).toNat)
       else 0) :=
  ⟨by decide,
   compare_wave_patterns_formula_c1.1 [2] [0] [2] [0] 1
     (by decide) (by decide) rfl rfl rfl rfl⟩

/-- C5 (amended): for every valid pair whose combined energy exceeds
`MIN_ENERGY`, `compare_with_phase_delta` returns the pairwise §4.1 score paired
with the arithmetic mean of per-sample wrapped deltas; on two identical
patterns whose energy exceeds `MIN_ENERGY` (not merely nonzero) it returns
`(1.0, 0.0)`. -/
theorem compare_with_phase_delta_pair_c5 :
    (∀ (A1 P1 A2 P2 : List ℝ) (len : ℤ), 0 < len → len ≤ MAX_LEN →
      MIN_ENERGY < energySum A1 len.toNat + energySum A2 len.toNat →
      compare_with_phase_delta (some A1) (some P1) (some A2) (some P2) len =
        (compare_wave_patterns (some A1) (some P1) (some A2) (some P2) len,
         deltaSum P1 P2 len.toNat / (len.toNat : ℝ))) ∧
    (∀ (A P : List ℝ) (len : ℤ), 0 < len → len ≤ MAX_LEN →
      MIN_ENERGY < energySum A len.toNat →
      compare_with_phase_delta (some A) (some P) (some A) (some P) len = (1, 0)) := by
  have hmain : ∀ (A1 P1 A2 P2 : List ℝ) (len : ℤ), 0 < len → len ≤ MAX_LEN →
      MIN_ENERGY < energySum A1 len.toNat + energySum A2 len.toNat →
      compare_with_phase_delta (some A1) (some P1) (some A2) (some P2) len =
        (compare_wave_patterns (some A1) (some P1) (some A2) (some P2) len,
         deltaSum P1 P2 len.toNat / (len.toNat : ℝ)) := by
    intro A1 P1 A2 P2 len h0 hmax hE
    have hvan : ¬ (len ≤ 0 ∨ MAX_LEN < len) := by
      simp only [not_or, not_le, not_lt]
      exact ⟨h0, hmax⟩
    simp only [compare_with_phase_delta, compare_wave_patterns]
    rw [if_neg hvan, if_neg hvan]
    exact compare_with_delta_scalar_valid A1 P1 A2 P2 len.toNat hE
  constructor
  · exact hmain
  · intro A P len h0 hmax hE
    have hpos : (0:ℝ) < energySum A len.toNat := lt_trans MIN_ENERGY_pos hE
    have hE2 : MIN_ENERGY < energySum A len.toNat + energySum A len.toNat := by linarith
    rw [hmain A P A P len h0 hmax hE2]
    have hvan : ¬ (len ≤ 0 ∨ MAX_LEN < len) := by
      simp only [not_or, not_le, not_lt]
      exact ⟨h0, hmax⟩
    simp only [compare_wave_patterns]
    rw [if_neg hvan]
    simp only [compare_scalar_cosdelta]
    rw [crossSum_self, scoreFromSums_self _ hE, deltaSum_self, zero_div]

theorem compare_with_phase_delta_pair_c5_witness :
    (0 : ℤ) < 1 ∧
    compare_with_phase_delta (some [1]) (some [0]) (some [1]) (some [0]) 1 = (1, 0) :=
  ⟨by decide,
   compare_with_phase_delta_pair_c5.2 [1] [0] 1 (by decide) (by decide)
     (by norm_num [energySum, MIN_ENERGY, Finset.sum_range_succ, List.getD])⟩

/-- C5 counterexample to the claim as stated: two identical single-sample
patterns of nonzero energy `7.5e-21` (which is below `MIN_ENERGY` while the
combined energy `1.5e-20` is above it) yield `(0, 0)`, not `(1, 0)`: the
amplitude-balance gate zeroes the score. -/
theorem compare_with_phase_delta_nonzero_energy_c5_cex :
    compare_with_phase_delta (some [Real.sqrt 7.5e-21]) (some [0])
        (some [Real.sqrt 7.5e-21]) (some [0]) 1 = (0, 0) ∧
    energySum [Real.sqrt 7.5e-21] 1 = 7.5e-21 ∧ (7.5e-21 : ℝ) ≠ 0 := by
  have hE : energySum [Real.sqrt 7.5e-21] 1 = 7.5e-21 := by
    simp [energySum, Finset.sum_range_succ, List.getD]
    exact Real.mul_self_sqrt (by norm_num)
  refine ⟨?_, hE, by norm_num⟩
  simp only [compare_with_phase_delta]
  rw [if_neg (by norm_num [MAX_LEN])]
  show compare_with_delta_scalar [Real.sqrt 7.5e-21] [0] [Real.sqrt 7.5e-21] [0] 1 = (0, 0)
  simp only [compare_with_delta_scalar]
  rw [crossSum_self, hE, deltaSum_self]
  rw [if_neg (by norm_num [MIN_ENERGY] : ¬ ((7.5e-21 : ℝ) + 7.5e-21 ≤ MIN_ENERGY))]
  rw [if_neg (by norm_num [MIN_ENERGY] :
    ¬ (MIN_ENERGY < (7.5e-21 : ℝ) ∧ MIN_ENERGY < (7.5e-21 : ℝ)))]
  norm_num

/-- C6: whenever the combined energy is at or below `MIN_ENERGY`, the pairwise
score is exactly `0`, the phase-delta pair is exactly `(0, 0)`, and the same
per-candidate floor yields `0` in the `out[k]` slot of both batch operations —
a defined result, with no error signalled (the model has no error channel,
matching the C code, which returns normally). -/
theorem degenerate_energy_zero_c6 :
    (∀ (a1 p1 a2 p2 : List ℝ) (len : ℤ), 0 < len → len ≤ MAX_LEN →
      energySum a1 len.toNat + energySum a2 len.toNat ≤ MIN_ENERGY →
      compare_wave_patterns (some a1) (some p1) (some a2) (some p2) len = 0) ∧
    (∀ (A1 P1 A2 P2 : List ℝ) (len : ℤ), 0 < len → len ≤ MAX_LEN →
      energySum A1 len.toNat + energySum A2 len.toNat ≤ MIN_ENERGY →
      compare_with_phase_delta (some A1) (some P1) (some A2) (some P2) len = (0, 0)) ∧
    (∀ (ampQ phaseQ ampAll phaseAll : List ℝ) (len count : ℤ) (out : List ℝ) (k : ℕ),
      0 < len → len ≤ MAX_LEN → 0 < count → count ≤ MAX_COUNT →
      k < count.toNat → k < out.length →
      energySum ampQ len.toNat
          + energySum (ampAll.drop (k * len.toNat)) len.toNat ≤ MIN_ENERGY →
      ((compare_many_flat (some ampQ) (some phaseQ) (some ampAll) (some phaseAll)
          len count (some out)).getD []).getD k 0 = 0) ∧
    (∀ (ampQ phaseQ : List ℝ) (ampList phaseList : List (Option (List ℝ)))
        (a2 p2 : List ℝ) (len count : ℤ) (out : List ℝ) (k : ℕ),
      0 < len → len ≤ MAX_LEN → 0 < count → count ≤ MAX_COUNT →
      k < count.toNat → k < out.length →
      ampList.getD k none = some a2 → phaseList.getD k none = some p2 →
      energySum ampQ len.toNat + energySum a2 len.toNat ≤ MIN_ENERGY →
      ((compare_many (some ampQ) (some phaseQ) (some ampList) (some phaseList)
          len count (some out)).getD []).getD k 0 = 0) := by
  refine ⟨?_, ?_, ?_, ?_⟩
  · intro a1 p1 a2 p2 len h0 hmax hdeg
    simp only [compare_wave_patterns]
    rw [if_neg (by simp only [not_or, not_le, not_lt]; exact ⟨h0, hmax⟩)]
    simp only [compare_scalar_cosdelta]
    exact scoreFromSums_zero_of_degenerate _ _ _ hdeg
  · intro A1 P1 A2 P2 len h0 hmax hdeg
    simp only [compare_with_phase_delta]
    rw [if_neg (by simp only [not_or, not_le, not_lt]; exact ⟨h0, hmax⟩)]
    simp only [compare_with_delta_scalar]
    rw [if_pos hdeg]
  · intro ampQ phaseQ ampAll phaseAll len count out k h0 hmax hc0 hcmax hk hko hdeg
    have hval : ¬ (len ≤ 0 ∨ count ≤ 0 ∨ MAX_LEN < len ∨ MAX_COUNT < count) := by
      simp only [not_or, not_le, not_lt]
      exact ⟨h0, hc0, hmax, hcmax⟩
    rw [compare_many_flat_getD ampQ phaseQ ampAll phaseAll len count out k hval hk hko]
    exact scoreFromSums_zero_of_degenerate _ _ _ hdeg
  · intro ampQ phaseQ ampList phaseList a2 p2 len count out k h0 hmax hc0 hcmax hk hko ha hp hdeg
    have hval : ¬ (len ≤ 0 ∨ count ≤ 0 ∨ MAX_LEN < len ∨ MAX_COUNT < count) := by
      simp only [not_or, not_le, not_lt]
      exact ⟨h0, hc0, hmax, hcmax⟩
    rw [compare_many_getD ampQ phaseQ ampList phaseList len count out k hval hk hko, ha, hp]
    exact scoreFromSums_zero_of_degenerate _ _ _ hdeg

theorem degenerate_energy_zero_c6_witness :
    (0 : ℤ) < 1 ∧
    compare_wave_patterns (some [0]) (some [0]) (some [0]) (some [0]) 1 = 0 :=
  ⟨by decide,
   degenerate_energy_zero_c6.1 [0] [0] [0] [0] 1 (by decide) (by decide)
     (by norm_num [energySum, MIN_ENERGY, Finset.sum_range_succ, List.getD])⟩

/-- C7: every malformed call — any required buffer null, `len ≤ 0`,
`len > MAX_LEN`, and for batch calls `count ≤ 0` or `count > MAX_COUNT` — makes
the pairwise operation return `0.0`, the phase-delta operation return
`(0.0, 0.0)`, and both batch operations return with the output buffer exactly
as passed in; no error is signalled (the functions return normally). -/
theorem invalid_args_noop_c7 :
    (∀ (a1 p1 a2 p2 : Option (List ℝ)) (len : ℤ),
      a1 = none ∨ p1 = none ∨ a2 = none ∨ p2 = none ∨ len ≤ 0 ∨ MAX_LEN < len →
      compare_wave_patterns a1 p1 a2 p2 len = 0) ∧
    (∀ (A1 P1 A2 P2 : Option (List ℝ)) (len : ℤ),
      A1 = none ∨ P1 = none ∨ A2 = none ∨ P2 = none ∨ len ≤ 0 ∨ MAX_LEN < len →
      compare_with_phase_delta A1 P1 A2 P2 len = (0, 0)) ∧
    (∀ (ampQ phaseQ ampAll phaseAll : Option (List ℝ)) (len count : ℤ)
        (out : Option (List ℝ)),
      ampQ = none ∨ phaseQ = none ∨ ampAll = none ∨ phaseAll = none ∨ out = none ∨
        len ≤ 0 ∨ count ≤ 0 ∨ MAX_LEN < len ∨ MAX_COUNT < count →
      compare_many_flat ampQ phaseQ ampAll phaseAll len count out = out) ∧
    (∀ (ampQ phaseQ : Option (List ℝ))
        (ampList phaseList : Option (List (Option (List ℝ)))) (len count : ℤ)
        (out : Option (List ℝ)),
      ampQ = none ∨ phaseQ = none ∨ ampList = none ∨ phaseList = none ∨ out = none ∨
        len ≤ 0 ∨ count ≤ 0 ∨ MAX_LEN < len ∨ MAX_COUNT < count →
      compare_many ampQ phaseQ ampList phaseList len count out = out) := by
  refine ⟨?_, ?_, ?_, ?_⟩
  · intro a1 p1 a2 p2 len h
    rcases a1 with _ | a1
    · rfl
    rcases p1 with _ | p1
    · rfl
    rcases a2 with _ | a2
    · rfl
    rcases p2 with _ | p2
    · rfl
    simp only [compare_wave_patterns]
    rcases h with h | h | h | h | h | h
    · exact absurd h (by simp)
    · exact absurd h (by simp)
    · exact absurd h (by simp)
    · exact absurd h (by simp)
    · rw [if_pos (Or.inl h)]
    · rw [if_pos (Or.inr h)]
  · intro A1 P1 A2 P2 len h
    rcases A1 with _ | A1
    · rfl
    rcases P1 with _ | P1
    · rfl
    rcases A2 with _ | A2
    · rfl
    rcases P2 with _ | P2
    · rfl
    simp only [compare_with_phase_delta]
    rcases h with h | h | h | h | h | h
    · exact absurd h (by simp)
    · exact absurd h (by simp)
    · exact absurd h (by simp)
    · exact absurd h (by simp)
    · rw [if_pos (Or.inl h)]
    · rw [if_pos (Or.inr h)]
  · intro ampQ phaseQ ampAll phaseAll len count out h
    rcases ampQ with _ | ampQ
    · rfl
    rcases phaseQ with _ | phaseQ
    · rfl
    rcases ampAll with _ | ampAll
    · rfl
    rcases phaseAll with _ | phaseAll
    · rfl
    rcases out with _ | out
    · rfl
    simp only [compare_many_flat]
    rcases h with h | h | h | h | h | h | h | h | h
    · exact absurd h (by simp)
    · exact absurd h (by simp)
    · exact absurd h (by simp)
    · exact absurd h (by simp)
    · exact absurd h (by simp)
    · rw [if_pos (Or.inl h)]
    · rw [if_pos (Or.inr (Or.inl h))]
    · rw [if_pos (Or.inr (Or.inr (Or.inl h)))]
    · rw [if_pos (Or.inr (Or.inr (Or.inr h)))]
  · intro ampQ phaseQ ampList phaseList len count out h
    rcases ampQ with _ | ampQ
    · rfl
    rcases phaseQ with _ | phaseQ
    · rfl
    rcases ampList with _ | ampList
    · rfl
    rcases phaseList with _ | phaseList
    · rfl
    rcases out with _ | out
    · rfl
    simp only [compare_many]
    rcases h with h | h | h | h | h | h | h | h | h
    · exact absurd h (by simp)
    · exact absurd h (by simp)
    · exact absurd h (by simp)
    · exact absurd h (by simp)
    · exact absurd h (by simp)
    · rw [if_pos (Or.inl h)]
    · rw [if_pos (Or.inr (Or.inl h))]
    · rw [if_pos (Or.inr (Or.inr (Or.inl h)))]
    · rw [if_pos (Or.inr (Or.inr (Or.inr h)))]

theorem invalid_args_noop_c7_witness :
    compare_wave_patterns (some []) (some []) (some []) (some []) 0 = 0 ∧
    compare_many_flat (some []) (some []) (some []) (some []) 0 1 (some [5]) = some [5] :=
  ⟨invalid_args_noop_c7.1 (some []) (some []) (some []) (some []) 0
     (Or.inr (Or.inr (Or.inr (Or.inr (Or.inl (by decide)))))),
   invalid_args_noop_c7.2.2.1 (some []) (some []) (some []) (some []) 0 1 (some [5])
     (Or.inr (Or.inr (Or.inr (Or.inr (Or.inr (Or.inl (by decide)))))))⟩

/-- C8 (amended): for every input (no amplitude-sign or phase-range
restriction, and including invalid calls, which return `0`) the score lies in
`[0, 1]` in exact arithmetic — interference is a sum of squared magnitudes and
the cross term obeys Cauchy-Schwarz; the value `1` is attained when `EA = EB`
and the phases are sample-wise identical, but such phase identity is not
necessary for attainment. -/
theorem score_bounds_c8 :
    (∀ (a1 p1 a2 p2 : Option (List ℝ)) (len : ℤ),
      0 ≤ compare_wave_patterns a1 p1 a2 p2 len ∧
        compare_wave_patterns a1 p1 a2 p2 len ≤ 1) ∧
    (∀ (a p : List ℝ) (len : ℤ), 0 < len → len ≤ MAX_LEN →
      MIN_ENERGY < energySum a len.toNat →
      compare_wave_patterns (some a) (some p) (some a) (some p) len = 1) := by
  constructor
  · intro a1 p1 a2 p2 len
    rcases a1 with _ | a1
    · exact ⟨le_refl _, zero_le_one⟩
    rcases p1 with _ | p1
    · exact ⟨le_refl _, zero_le_one⟩
    rcases a2 with _ | a2
    · exact ⟨le_refl _, zero_le_one⟩
    rcases p2 with _ | p2
    · exact ⟨le_refl _, zero_le_one⟩
    simp only [compare_wave_patterns]
    by_cases hval : len ≤ 0 ∨ MAX_LEN < len
    · rw [if_pos hval]
      exact ⟨le_refl 0, zero_le_one⟩
    · rw [if_neg hval]
      exact compare_scalar_cosdelta_bounds _ _ _ _ _
  · intro a p len h0 hmax hE
    simp only [compare_wave_patterns]
    rw [if_neg (by simp only [not_or, not_le, not_lt]; exact ⟨h0, hmax⟩)]
    simp only [compare_scalar_cosdelta]
    rw [crossSum_self]
    exact scoreFromSums_self _ hE

theorem score_bounds_c8_witness :
    (0 : ℤ) < 1 ∧
    compare_wave_patterns (some [3]) (some [1]) (some [3]) (some [1]) 1 = 1 :=
  ⟨by decide,
   score_bounds_c8.2 [3] [1] 1 (by decide) (by decide)
     (by norm_num [energySum, MIN_ENERGY, Finset.sum_range_succ, List.getD])⟩

/-- C8 counterexample to the attainment rider as stated: `amp1 = [1]`,
`phase1 = [0]`, `amp2 = [-1]`, `phase2 = [π]` has equal energies but its
phases are not sample-wise identical (`0 ≠ π`), yet the score is exactly `1`:
the negated amplitude and the `π` phase offset cancel in the cross term. -/
theorem score_one_unequal_phases_c8_cex :
    compare_wave_patterns (some [1]) (some [0]) (some [-1]) (some [Real.pi]) 1 = 1 ∧
    (0 : ℝ) ≠ Real.pi := by
  constructor
  · simp only [compare_wave_patterns]
    rw [if_neg (by norm_num [MAX_LEN])]
    show compare_scalar_cosdelta [1] [0] [-1] [Real.pi] 1 = 1
    have hEA : energySum [(1:ℝ)] 1 = 1 := by
      norm_num [energySum, Finset.sum_range_succ, List.getD]
    have hEB : energySum [(-1:ℝ)] 1 = 1 := by
      norm_num [energySum, Finset.sum_range_succ, List.getD]
    have hcr : crossSum [(1:ℝ)] [0] [-1] [Real.pi] 1 = 1 := by
      norm_num [crossSum, Finset.sum_range_succ, List.getD, Real.cos_pi]
    simp only [compare_scalar_cosdelta]
    rw [hEA, hEB, hcr]
    exact scoreFromSums_self 1 (by norm_num [MIN_ENERGY])
  · exact fun h => Real.pi_ne_zero h.symm

/-- C9: in a valid scattered batch, a candidate slot with a null amplitude or
phase reference receives exactly `0.0`, and every other slot receives a value
that does not depend on candidate `k` at all (replacing candidate `k` by
anything leaves all slots `j ≠ k` unchanged): one missing candidate never
aborts or perturbs the rest of the batch. -/
theorem compare_many_null_candidate_c9 :
    ∀ (ampQ phaseQ : List ℝ) (ampList phaseList : List (Option (List ℝ)))
      (len count : ℤ) (out : List ℝ) (k : ℕ),
      0 < len → len ≤ MAX_LEN → 0 < count → count ≤ MAX_COUNT →
      k < count.toNat → k < out.length →
      (ampList.getD k none = none ∨ phaseList.getD k none = none) →
      ((compare_many (some ampQ) (some phaseQ) (some ampList) (some phaseList)
          len count (some out)).getD []).getD k 0 = 0 ∧
      (∀ (ampList' phaseList' : List (Option (List ℝ))),
        (∀ j : ℕ, j ≠ k →
          ampList'.getD j none = ampList.getD j none ∧
          phaseList'.getD j none = phaseList.getD j none) →
        ∀ j : ℕ, j < count.toNat → j < out.length → j ≠ k →
        ((compare_many (some ampQ) (some phaseQ) (some ampList') (some phaseList')
            len count (some out)).getD []).getD j 0 =
        ((compare_many (some ampQ) (some phaseQ) (some ampList) (some phaseList)
            len count (some out)).getD []).getD j 0) := by
  intro ampQ phaseQ ampList phaseList len count out k h0 hmax hc0 hcmax hk hko hnull
  have hval : ¬ (len ≤ 0 ∨ count ≤ 0 ∨ MAX_LEN < len ∨ MAX_COUNT < count) := by
    simp only [not_or, not_le, not_lt]
    exact ⟨h0, hc0, hmax, hcmax⟩
  constructor
  · rw [compare_many_getD ampQ phaseQ ampList phaseList len count out k hval hk hko]
    rcases hnull with h | h
    · rw [h]
    · rw [h]
      cases ampList.getD k none <;> rfl
  · intro ampList' phaseList' hagree j hj hjo hjk
    rw [compare_many_getD ampQ phaseQ ampList' phaseList' len count out j hval hj hjo,
      compare_many_getD ampQ phaseQ ampList phaseList len count out j hval hj hjo,
      (hagree j hjk).1, (hagree j hjk).2]

theorem compare_many_null_candidate_c9_witness :
    (0 : ℤ) < 1 ∧
    ((compare_many (some [1]) (some [0]) (some [none]) (some [some [1]])
        1 1 (some [5])).getD []).getD 0 0 = 0 :=
  ⟨by decide,
   (compare_many_null_candidate_c9 [1] [0] [none] [some [1]] 1 1 [5] 0
     (by decide) (by decide) (by decide) (by decide) (by decide) (by decide)
     (Or.inl rfl)).1⟩


/-- C2: at `len = 17` (not divisible by the 8-lane width) and `count = 1`, the
AVX2 branch of `compare_many_flat` writes `1/3` into `out[0]` while the
pairwise score of the query against that same candidate is `1/17`; the relative
error far exceeds the `1e-4` tolerance.  The remainder sample is broadcast into
all 8 lanes of the accumulators (and of the precomputed query energy `EA`,
making `EA = 24 ≠ 17`), so it is counted 8 times after the horizontal sum. -/
theorem compare_many_flat_avx2_remainder_c2 :
    compare_many_flat_avx2 (some (List.replicate 17 1)) (some (List.replicate 17 0))
        (some (List.replicate 17 1)) (some (List.replicate 16 Real.pi ++ [0]))
        17 1 (some [0])
      = some [1 / 3] ∧
    compare_wave_patterns (some (List.replicate 17 1)) (some (List.replicate 17 0))
        (some (List.replicate 17 1)) (some (List.replicate 16 Real.pi ++ [0])) 17
      = 1 / 17 ∧
    queryEnergyAvx2 (List.replicate 17 1) 17 = 24 ∧
    energySum (List.replicate 17 1) 17 = 17 ∧
    ¬ |(1:ℝ) / 3 - 1 / 17| ≤ 1e-4 * |(1:ℝ) / 17| := by
  refine ⟨?_, ?_, queryEnergyAvx2_ones17, energySum_ones17, ?_⟩
  · simp only [compare_many_flat_avx2]
    rw [if_neg (by norm_num [MAX_LEN, MAX_COUNT])]
    rw [show ((1:ℤ)).toNat = 1 from rfl, show ((17:ℤ)).toNat = 17 from rfl,
      show List.range 1 = [0] from rfl]
    simp only [List.foldl_cons, List.foldl_nil]
    rw [show (0 * 17 : ℕ) = 0 from rfl, List.drop_zero, List.drop_zero]
    rw [queryEnergyAvx2_ones17, candScoreAvx2_ones17]
    rfl
  · simp only [compare_wave_patterns]
    rw [if_neg (by norm_num [MAX_LEN])]
    show compare_scalar_cosdelta (List.replicate 17 1) (List.replicate 17 0)
      (List.replicate 17 1) (List.replicate 16 Real.pi ++ [0]) 17 = 1 / 17
    simp only [compare_scalar_cosdelta]
    rw [energySum_ones17, crossSum_ones17]
    exact scoreFromSums_half_energy
  · have h1 : |(1:ℝ) / 3 - 1 / 17| = 1 / 3 - 1 / 17 := abs_of_pos (by norm_num)
    have h2 : |(1:ℝ) / 17| = 1 / 17 := abs_of_pos (by norm_num)
    rw [h1, h2]
    norm_num

/-- C3: at `len = 17` the AVX2 branch of `compare_with_phase_delta` returns
score `1/3` where the scalar reference returns `1/17`, because the remainder
loop broadcasts the 17th sample into all 8 lanes of the `EA`/`EB`/`cross`
accumulators before the horizontal reduction, counting it 8 times
(`EA = EB = 24` instead of `17`); the wrapped-delta mean agrees here. -/
theorem compare_with_phase_delta_avx2_remainder_c3 :
    compare_with_phase_delta_avx2 (some (List.replicate 17 1)) (some (List.replicate 17 0))
        (some (List.replicate 17 1)) (some (List.replicate 16 Real.pi ++ [0])) 17
      = (1 / 3, 16 * Real.pi / 17) ∧
    compare_with_phase_delta (some (List.replicate 17 1)) (some (List.replicate 17 0))
        (some (List.replicate 17 1)) (some (List.replicate 16 Real.pi ++ [0])) 17
      = (1 / 17, 16 * Real.pi / 17) ∧
    (1:ℝ) / 3 ≠ 1 / 17 := by
  refine ⟨?_, ?_, by norm_num⟩
  · simp only [compare_with_phase_delta_avx2]
    rw [if_neg (by norm_num [MAX_LEN])]
    rw [show ((17:ℤ)).toNat = 17 from rfl]
    rw [deltaMainAvx2_ones17]
    simp only []
    rw [deltaRemAvx2_ones17]
    simp only []
    have h3 : hsum256_ps (fun _ => (3:ℝ)) = 24 := by
      simp [hsum256_ps]
      norm_num
    have hm1 : hsum256_ps (fun _ => (-1:ℝ)) = -8 := by
      simp [hsum256_ps]
      norm_num
    rw [h3, hm1]
    rw [if_pos (by norm_num [MIN_ENERGY] : MIN_ENERGY < (24:ℝ) + 24)]
    rw [if_pos (by norm_num [MIN_ENERGY] :
      MIN_ENERGY < (24:ℝ) ∧ MIN_ENERGY < (24:ℝ))]
    rw [Real.sqrt_mul_self (by norm_num : (0:ℝ) ≤ 24)]
    norm_num
  · simp only [compare_with_phase_delta]
    rw [if_neg (by norm_num [MAX_LEN])]
    show compare_with_delta_scalar (List.replicate 17 1) (List.replicate 17 0)
      (List.replicate 17 1) (List.replicate 16 Real.pi ++ [0]) 17 = (1 / 17, 16 * Real.pi / 17)
    rw [compare_with_delta_scalar_valid _ _ _ _ 17
      (by rw [energySum_ones17]; norm_num [MIN_ENERGY])]
    rw [deltaSum_ones17]
    simp only [compare_scalar_cosdelta]
    rw [energySum_ones17, crossSum_ones17, scoreFromSums_half_energy]
    norm_num

/-- C4: the vectorized wrap of `compare_with_phase_delta` applies one
conditional `±2π` step with both masks taken from the raw delta (and a strict
compare on the `-π` side), so raw deltas beyond `±3π` — and the boundary `-π`
itself — are left outside `(-π, π]`: `4π ↦ 2π` while the scalar loop gives
`wrap_pi (4π) = 0`; on all-`4π` deltas of length 16 the AVX2 kernel reports a
mean phase offset of `2π` where the scalar kernel reports `0`. -/
theorem wrap_pi_avx2_single_step_c4 :
    wrap_pi_avx2 (4 * Real.pi) = 2 * Real.pi ∧
    2 * Real.pi ∉ Set.Ioc (-Real.pi) Real.pi ∧
    wrap_pi (4 * Real.pi) = 0 ∧
    wrap_pi_avx2 (-Real.pi) = -Real.pi ∧
    -Real.pi ∉ Set.Ioc (-Real.pi) Real.pi ∧
    compare_with_phase_delta_avx2 (some (List.replicate 16 1)) (some (List.replicate 16 0))
        (some (List.replicate 16 1)) (some (List.replicate 16 (4 * Real.pi))) 16
      = (1, 2 * Real.pi) ∧
    compare_with_phase_delta (some (List.replicate 16 1)) (some (List.replicate 16 0))
        (some (List.replicate 16 1)) (some (List.replicate 16 (4 * Real.pi))) 16
      = (1, 0) := by
  have hpi := Real.pi_pos
  refine ⟨wrap_pi_avx2_four_pi, ?_, wrap_pi_four_pi, wrap_pi_avx2_neg_pi, ?_, ?_, ?_⟩
  · intro hmem
    rcases Set.mem_Ioc.mp hmem with ⟨_, h2⟩
    linarith
  · intro hmem
    rcases Set.mem_Ioc.mp hmem with ⟨h1, _⟩
    exact lt_irrefl _ h1
  · simp only [compare_with_phase_delta_avx2]
    rw [if_neg (by norm_num [MAX_LEN])]
    rw [show ((16:ℤ)).toNat = 16 from rfl]
    rw [deltaMainAvx2_fourpi]
    simp only []
    rw [deltaRemAvx2, if_neg (by norm_num : ¬ ((16:ℕ) < 16))]
    simp only []
    have h2l : hsum256_ps (vadd (fun _ => (1:ℝ)) (fun _ => (1:ℝ))) = 16 := by
      simp [hsum256_ps, vadd]
      norm_num
    rw [h2l]
    rw [if_pos (by norm_num [MIN_ENERGY] : MIN_ENERGY < (16:ℝ) + 16)]
    rw [if_pos (by norm_num [MIN_ENERGY] :
      MIN_ENERGY < (16:ℝ) ∧ MIN_ENERGY < (16:ℝ))]
    rw [Real.sqrt_mul_self (by norm_num : (0:ℝ) ≤ 16)]
    norm_num
    ring
  · simp only [compare_with_phase_delta]
    rw [if_neg (by norm_num [MAX_LEN])]
    show compare_with_delta_scalar (List.replicate 16 1) (List.replicate 16 0)
      (List.replicate 16 1) (List.replicate 16 (4 * Real.pi)) 16 = (1, 0)
    rw [compare_with_delta_scalar_valid _ _ _ _ 16
      (by rw [energySum_ones16]; norm_num [MIN_ENERGY])]
    rw [deltaSum_fourpi, zero_div]
    simp only [compare_scalar_cosdelta]
    rw [energySum_ones16, crossSum_fourpi]
    rw [scoreFromSums_self 16 (by norm_num [MIN_ENERGY])]

/-- C10: refuted at the single-precision level.  At the finite float input
`x = -134217744.0f` (that is `-(2^27 + 16)`, exactly representable, e.g. the
raw delta of `P2[i] = 0` against `P1[i] = 134217744.0f`): the increment
`twoPiF` is below half the 16-wide float spacing of that binade, so the loop
body `x += twoPi` rounds back to `x`; the guard `x ≤ -π` holds and keeps
holding after any number of iterations, hence `while (x <= -pi) x += twoPi;`
never exits and the C `wrap_pi` does not terminate — each iteration moves the
single-precision value by `0`, not by `2π`. -/
theorem wrap_pi_float_absorption_c10 :
    twoPiF < 16 / 2 ∧
    wrapUpStepFloat (-134217744) = -134217744 ∧
    (-134217744 : ℝ) ≤ -Real.pi ∧
    (∀ n : ℕ, wrapUpStepFloat^[n] (-134217744) = -134217744) := by
  have hround : round ((-134217744 + twoPiF) / 16 : ℝ) = -8388609 := by
    rw [round_eq]
    have hfl : (⌊((-134217744 + twoPiF) / 16 : ℝ) + 1 / 2⌋ : ℤ) = -8388609 := by
      apply Int.floor_eq_iff.mpr
      constructor
      · norm_num [twoPiF]
      · norm_num [twoPiF]
    exact hfl
  have hstep : wrapUpStepFloat (-134217744) = -134217744 := by
    rw [wrapUpStepFloat, roundToSpacing, hround]
    norm_num
  refine ⟨by norm_num [twoPiF], hstep, ?_, Function.iterate_fixed hstep⟩
  have h4 := Real.pi_le_four
  linarith
